import Mathlib

/-!
Verification development for the direwolf-display core
(src/app/models.py, src/app/storage.py, src/app/stream.py, src/app/config.py).

Modelling conventions:
* A datetime is an integer count of seconds of a single UTC timeline (Int);
  a timedelta is likewise an Int of seconds.  _ensure_utc normalises an
  aware/naive datetime to UTC; on instants of a single timeline it is the
  identity and is therefore dropped.
* Every Python function that (directly or through effective_datetime) reads
  datetime.now() takes the reading instant as an explicit parameter named
  now.  effective_datetime takes the instant of its own evaluation.
* Payload-only fields that no core operation ever reads (geolocation,
  comment, audio, dbm precision, metadata dicts, ...) are elided or kept as
  opaque integer data: they never influence storage, eviction, indexing,
  ordering or delivery.
* asyncio.Queue with maxsize Q is a FIFO list of pending messages (head =
  oldest) plus its bound; put_nowait returning none models QueueFull,
  get_nowait returning none models QueueEmpty.  maxsize 0 means unbounded,
  as in asyncio.
-/

namespace Direwolf

/-- models.py PacketEvent: the fields the core reads.  timestamp is the
optional explicit datetime, unix_time the optional epoch fallback,
source_callsign the optional source identifier. -/
structure PacketEvent where
  timestamp : Option Int
  unix_time : Option Nat
  source_callsign : Option String
deriving DecidableEq, Repr

/-- models.py PacketEvent.effective_datetime: explicit timestamp if present
(UTC-normalised), else the epoch fallback, else datetime.now(timezone.utc) —
the instant now at which the property is evaluated. -/
def PacketEvent.effective_datetime (p : PacketEvent) (now : Int) : Int :=
  match p.timestamp with
  | some t => t
  | none =>
    match p.unix_time with
    | some u => (u : Int)
    | none => now

/-- models.py RssiSample: optional explicit timestamp plus opaque numeric
payload (dbm, frequency_mhz, integration_ms) never read by the core. -/
structure RssiSample where
  timestamp : Option Int
  dbm : Int
  frequency_mhz : Int
  integration_ms : Option Nat
deriving DecidableEq, Repr

/-- models.py RssiSample.effective_datetime: explicit timestamp if present,
else datetime.now(timezone.utc) at the evaluation instant now. -/
def RssiSample.effective_datetime (r : RssiSample) (now : Int) : Int :=
  match r.timestamp with
  | some t => t
  | none => now

/-- models.py StreamMessage: event_type tag plus the payload (the dumped
event, carried by value). -/
inductive StreamMessage where
  | packet (p : PacketEvent)
  | rssi (r : RssiSample)
  | heartbeat (t : Int)
deriving DecidableEq, Repr

/-- The effective timestamp underlying a stream message at instant now
(heartbeats carry their own timestamp). -/
def StreamMessage.eff (m : StreamMessage) (now : Int) : Int :=
  match m with
  | .packet p => p.effective_datetime now
  | .rssi r => r.effective_datetime now
  | .heartbeat t => t

/-- An asyncio.Queue of stream messages: pending items (head = oldest) and
the maxsize bound (0 = unbounded, as in asyncio). -/
structure BQueue where
  items : List StreamMessage
  maxsize : Nat
deriving DecidableEq, Repr

/-- asyncio.Queue.full(): a queue with maxsize 0 is never full. -/
def BQueue.full (q : BQueue) : Bool :=
  decide (0 < q.maxsize) && decide (q.maxsize ≤ q.items.length)

/-- asyncio.Queue.put_nowait: appends at the newest end; none models the
QueueFull exception. -/
def BQueue.put_nowait (q : BQueue) (m : StreamMessage) : Option BQueue :=
  if q.full then none else some { q with items := q.items ++ [m] }

/-- asyncio.Queue.get_nowait: removes the oldest pending item; none models
the QueueEmpty exception. -/
def BQueue.get_nowait (q : BQueue) : Option (StreamMessage × BQueue) :=
  match q.items with
  | [] => none
  | m :: rest => some (m, { q with items := rest })

/-- storage.py BroadcastHub.publish, body of the per-queue loop: try
put_nowait; on QueueFull drop the oldest item (ignoring QueueEmpty) and try
once more; if still full, skip this subscriber for this message. -/
def publishToQueue (q : BQueue) (m : StreamMessage) : BQueue :=
  match q.put_nowait m with
  | some q1 => q1
  | none =>
    let q2 :=
      match q.get_nowait with
      | some pr => pr.2
      | none => q
    match q2.put_nowait m with
    | some q3 => q3
    | none => q2

/-- The maxsize used by BroadcastHub.subscribe (asyncio.Queue(maxsize=512)). -/
def subscribeMaxsize : Nat := 512

/-- storage.py BroadcastHub: the registered subscriber queues.  The Python
set is modelled as the list publish snapshots it into. -/
structure BroadcastHub where
  listeners : List BQueue
deriving DecidableEq, Repr

/-- storage.py BroadcastHub.publish over the snapshotted listener list. -/
def BroadcastHub.publish (h : BroadcastHub) (m : StreamMessage) : BroadcastHub :=
  { listeners := h.listeners.map (fun q => publishToQueue q m) }

/-- storage.py BroadcastHub.subscribe: register a fresh empty bounded queue;
also returns its position among the listeners. -/
def BroadcastHub.subscribe (h : BroadcastHub) : BroadcastHub × Nat :=
  ({ listeners := h.listeners ++ [{ items := [], maxsize := subscribeMaxsize }] },
   h.listeners.length)

/-- storage.py InMemoryStore state: the two deques (head = oldest), the
last-seen dict (insertion-ordered association list), retention timedelta in
seconds and the max_items cap. -/
structure InMemoryStore where
  packets : List PacketEvent
  rssi : List RssiSample
  last_seen_by_station : List (String × PacketEvent)
  retention : Int
  max_items : Int
deriving DecidableEq, Repr

/-- storage.py InMemoryStore.__init__: empty deques and dict; the body
performs no validation of its arguments. -/
def InMemoryStore.new (retention_seconds : Int) (max_items : Int) : InMemoryStore :=
  { packets := []
    rssi := []
    last_seen_by_station := []
    retention := retention_seconds
    max_items := max_items }

/-- InMemoryStore construction as seen by a caller: __init__ can raise no
exception, so construction always succeeds. -/
def InMemoryStore.construct (retention_seconds : Int) (max_items : Int) :
    Except String InMemoryStore :=
  Except.ok (InMemoryStore.new retention_seconds max_items)

/-- storage.py InMemoryStore._is_stale applied to an already-derived
effective timestamp. -/
def is_stale (eff cutoff : Int) : Bool := decide (eff < cutoff)

/-- First pass of storage.py InMemoryStore._trim: while the collection is
nonempty and its oldest item is stale, popleft. -/
def ageTrim (eff : α → Int) (cutoff : Int) (l : List α) : List α :=
  l.dropWhile (fun x => is_stale (eff x) cutoff)

/-- Second pass of storage.py InMemoryStore._trim: while the length exceeds
max_items, popleft.  This is the total projection of the loop: when
max_items is negative the Python loop reaches the empty deque, iterates
once more, and deque.popleft() raises IndexError — a path this function
collapses to [].  capTrimE keeps that error path; the two agree for every
non-negative max_items (capTrimE_eq_capTrim), and statements about failure
behaviour use capTrimE. -/
def capTrim (max_items : Int) : List α → List α
  | [] => []
  | x :: xs =>
    if max_items < ((x :: xs).length : Int) then capTrim max_items xs
    else x :: xs

/-- The capacity loop with its error path preserved: while the length
exceeds max_items, popleft; on the empty deque the loop guard 0 > max_items
can still hold (negative max_items), and popleft() then raises IndexError,
modelled as none. -/
def capTrimE (max_items : Int) : List α → Option (List α)
  | [] => if max_items < 0 then none else some []
  | x :: xs =>
    if max_items < ((x :: xs).length : Int) then capTrimE max_items xs
    else some (x :: xs)

/-- storage.py InMemoryStore._trim on one collection: the age pass with
cutoff = now − retention, then the capacity pass. -/
def trim (eff : α → Int) (cutoff : Int) (max_items : Int) (l : List α) : List α :=
  capTrim max_items (ageTrim eff cutoff l)

/-- Python dict assignment d[k] = v on an insertion-ordered dict: overwrite
in place when the key exists, else append at the end. -/
def dictInsert (m : List (String × PacketEvent)) (k : String) (v : PacketEvent) :
    List (String × PacketEvent) :=
  if m.any (fun kv => kv.1 == k) then
    m.map (fun kv => if kv.1 == k then (k, v) else kv)
  else m ++ [(k, v)]

/-- Python dict lookup d.get(k). -/
def dictLookup (m : List (String × PacketEvent)) (k : String) : Option PacketEvent :=
  (m.find? (fun kv => kv.1 == k)).map (fun kv => kv.2)

/-- storage.py InMemoryStore._prune_last_seen: drop every entry whose
packet's effective_datetime is below the cutoff. -/
def prune_last_seen (m : List (String × PacketEvent)) (cutoff now : Int) :
    List (String × PacketEvent) :=
  m.filter (fun kv => !(is_stale (kv.2.effective_datetime now) cutoff))

/-- The last-seen update step of storage.py InMemoryStore.add_packet:
if packet.source_callsign is truthy (present and nonempty), overwrite its
entry with this packet. -/
def updateLastSeenFor (m : List (String × PacketEvent)) (p : PacketEvent) :
    List (String × PacketEvent) :=
  match p.source_callsign with
  | some cs => if cs = "" then m else dictInsert m cs p
  | none => m

/-- storage.py InMemoryStore.add_packet: append, update last-seen, then
_trim(packets, prune_last_seen=True) with cutoff = now − retention. -/
def InMemoryStore.add_packet (s : InMemoryStore) (p : PacketEvent) (now : Int) :
    InMemoryStore :=
  { s with
    packets :=
      trim (fun q => q.effective_datetime now) (now - s.retention) s.max_items
        (s.packets ++ [p])
    last_seen_by_station :=
      prune_last_seen (updateLastSeenFor s.last_seen_by_station p)
        (now - s.retention) now }

/-- storage.py InMemoryStore.add_rssi: append then _trim(rssi). -/
def InMemoryStore.add_rssi (s : InMemoryStore) (r : RssiSample) (now : Int) :
    InMemoryStore :=
  { s with
    rssi :=
      trim (fun x => x.effective_datetime now) (now - s.retention) s.max_items
        (s.rssi ++ [r]) }

/-- _trim with the capacity loop's IndexError path preserved. -/
def trimE (eff : α → Int) (cutoff : Int) (max_items : Int) (l : List α) :
    Option (List α) :=
  capTrimE max_items (ageTrim eff cutoff l)

/-- add_packet with the IndexError path preserved: none models the
IndexError raised out of the capacity loop reaching the caller (the Python
store is left partially mutated in that case; only the failure itself is
modelled here). -/
def InMemoryStore.add_packetE (s : InMemoryStore) (p : PacketEvent) (now : Int) :
    Option InMemoryStore :=
  match trimE (fun q => q.effective_datetime now) (now - s.retention)
      s.max_items (s.packets ++ [p]) with
  | none => none
  | some l =>
    some { s with
      packets := l
      last_seen_by_station :=
        prune_last_seen (updateLastSeenFor s.last_seen_by_station p)
          (now - s.retention) now }

/-- add_rssi with the IndexError path preserved. -/
def InMemoryStore.add_rssiE (s : InMemoryStore) (r : RssiSample) (now : Int) :
    Option InMemoryStore :=
  match trimE (fun x => x.effective_datetime now) (now - s.retention)
      s.max_items (s.rssi ++ [r]) with
  | none => none
  | some l => some { s with rssi := l }

/-- The keyed entry list built by storage.py
InMemoryStore.snapshot_stream_events before sorting: every retained packet,
then every retained sample, each paired with its effective_datetime. -/
def snapshotEntries (s : InMemoryStore) (now : Int) : List (Int × StreamMessage) :=
  s.packets.map (fun p => (p.effective_datetime now, StreamMessage.packet p))
    ++ s.rssi.map (fun r => (r.effective_datetime now, StreamMessage.rssi r))

/-- storage.py InMemoryStore.snapshot_stream_events: sort the entries by
their key with Python's stable list.sort, then strip the keys. -/
def InMemoryStore.snapshot_stream_events (s : InMemoryStore) (now : Int) :
    List StreamMessage :=
  ((snapshotEntries s now).mergeSort (fun a b => decide (a.1 ≤ b.1))).map
    (fun e => e.2)

/-- One producer operation on the store, tagged with the instant at which
_trim reads the clock. -/
inductive StoreOp where
  | packet (p : PacketEvent) (now : Int)
  | rssi (r : RssiSample) (now : Int)
deriving DecidableEq, Repr

/-- Run a sequence of inserts against a store. -/
def runOps (s : InMemoryStore) : List StoreOp → InMemoryStore
  | [] => s
  | StoreOp.packet p now :: rest => runOps (s.add_packet p now) rest
  | StoreOp.rssi r now :: rest => runOps (s.add_rssi r now) rest

/-- One step of the ghost most-recent-insert tracker: a packet insert whose
truthy source identifier is k replaces the accumulator. -/
def liStep (k : String) (acc : Option PacketEvent) (op : StoreOp) :
    Option PacketEvent :=
  match op with
  | StoreOp.packet p _ =>
    match p.source_callsign with
    | some cs => if cs ≠ "" ∧ cs = k then some p else acc
    | none => acc
  | StoreOp.rssi _ _ => acc

/-- The most recently inserted packet carrying the (truthy) source
identifier k in a sequence of operations, if any. -/
def lastInsertFor (k : String) (ops : List StoreOp) : Option PacketEvent :=
  ops.foldl (liStep k) none

/-- The key column of the last-seen dict. -/
def keysOf (m : List (String × PacketEvent)) : List String := m.map (fun kv => kv.1)

/-- The world visible to a stream session: the shared store and hub. -/
structure WorldState where
  store : InMemoryStore
  hub : BroadcastHub
deriving DecidableEq, Repr

/-- The ingestion path for one packet (src/app/ingest.py): insert into the
store, then publish the corresponding stream message to the hub. -/
def ingestOne (w : WorldState) (p : PacketEvent) (now : Int) : WorldState :=
  { store := w.store.add_packet p now
    hub := w.hub.publish (StreamMessage.packet p) }

/-- stream.py stream_updates, session start (lines 35–36): the code first
captures the historical snapshot, then subscribes.  gap is the sequence of
packets other tasks ingest and publish between those two steps; the result
is the replay list, the world afterwards, and the index of the session's
queue among the listeners. -/
def stream_updates_start (w : WorldState) (gap : List (PacketEvent × Int))
    (now : Int) : List StreamMessage × WorldState × Nat :=
  let initial := w.store.snapshot_stream_events now
  let w1 := gap.foldl (fun acc pe => ingestOne acc pe.1 pe.2) w
  let sub := w1.hub.subscribe
  (initial, { w1 with hub := sub.1 }, sub.2)

/-- config.py AppSettings: the validated runtime configuration. -/
structure AppSettings where
  history_retention_seconds : Int
  max_history_items : Int
  sse_heartbeat_interval : ℚ
  stats_include_history : Bool
deriving DecidableEq, Repr

/-- config.py AppSettings construction: pydantic field constraints
ge=60 on history_retention_seconds, ge=1 on max_history_items, gt=0 on
sse_heartbeat_interval; a violated constraint raises a ValidationError. -/
def AppSettings.validate (history_retention_seconds max_history_items : Int)
    (sse_heartbeat_interval : ℚ) (stats_include_history : Bool) :
    Except String AppSettings :=
  if history_retention_seconds < 60 then
    Except.error "history_retention_seconds: input should be >= 60"
  else if max_history_items < 1 then
    Except.error "max_history_items: input should be >= 1"
  else if sse_heartbeat_interval ≤ 0 then
    Except.error "sse_heartbeat_interval: input should be > 0"
  else
    Except.ok
      { history_retention_seconds := history_retention_seconds
        max_history_items := max_history_items
        sse_heartbeat_interval := sse_heartbeat_interval
        stats_include_history := stats_include_history }

/-- A packet carrying neither an explicit timestamp nor an epoch fallback:
its effective_datetime is the clock reading of each evaluation. -/
def blankPacket : PacketEvent :=
  { timestamp := none, unix_time := none, source_callsign := none }

/-- An RSSI sample with no explicit timestamp. -/
def blankSample : RssiSample :=
  { timestamp := none, dbm := -100, frequency_mhz := 144, integration_ms := none }

/-! ## Helper lemmas about the eviction passes -/

/-- The capacity pass only removes items from the oldest end: its result is
a suffix of its input. -/
lemma capTrim_suffix {α : Type} (m : Int) (l : List α) : capTrim m l <:+ l := by
  induction l with
  | nil => simp [capTrim]
  | cons x xs ih =>
    rw [capTrim]
    split
    · exact ih.trans (List.suffix_cons x xs)
    · exact List.suffix_refl _

/-- The capacity pass enforces the size bound whenever the bound is
non-negative. -/
lemma length_capTrim_le {α : Type} (m : Int) (hm : 0 ≤ m) (l : List α) :
    ((capTrim m l).length : Int) ≤ m := by
  induction l with
  | nil => simpa [capTrim] using hm
  | cons x xs ih =>
    rw [capTrim]
    split
    · exact ih
    · next h => omega

/-- Under a non-negative capacity bound the capacity loop never reaches the
empty-deque popleft: the fallible loop always succeeds and agrees with the
total projection. -/
lemma capTrimE_eq_capTrim {α : Type} (m : Int) (hm : 0 ≤ m) (l : List α) :
    capTrimE m l = some (capTrim m l) := by
  induction l with
  | nil => simp [capTrimE, capTrim, show ¬ m < 0 by omega]
  | cons x xs ih =>
    by_cases hc : m < ((x :: xs).length : Int)
    · rw [capTrimE, capTrim, if_pos hc, if_pos hc]
      exact ih
    · rw [capTrimE, capTrim, if_neg hc, if_neg hc]

/-- The age pass only removes items from the oldest end: its result is a
suffix of its input. -/
lemma ageTrim_suffix {α : Type} (eff : α → Int) (c : Int) (l : List α) :
    ageTrim eff c l <:+ l := by
  unfold ageTrim
  exact ⟨_, List.takeWhile_append_dropWhile _ _⟩

/-- An element the staleness test rejects survives the age pass. -/
lemma mem_dropWhile_of_neg {α : Type} (p : α → Bool) (l : List α) (x : α)
    (hx : x ∈ l) (hpx : p x = false) : x ∈ l.dropWhile p := by
  induction l with
  | nil => cases hx
  | cons y ys ih =>
    rw [List.dropWhile_cons]
    split
    · next hy =>
      rcases List.mem_cons.mp hx with h | h
      · rw [h] at hpx; rw [hpx] at hy; cases hy
      · exact ih h
    · exact hx

/-- On a history whose effective timestamps are non-decreasing, every item
surviving the age pass is at or after the cutoff. -/
lemma ageTrim_pairwise_fresh {α : Type} (eff : α → Int) (cutoff : Int)
    (l : List α) (hs : l.Pairwise (fun a b => eff a ≤ eff b)) :
    ∀ x ∈ ageTrim eff cutoff l, ¬ (eff x < cutoff) := by
  induction hs with
  | nil => intro x hx; simp [ageTrim] at hx
  | @cons y ys hy htl ih =>
    intro x hx
    unfold ageTrim at hx
    rw [List.dropWhile_cons] at hx
    split at hx
    · exact ih x hx
    · next hyc =>
      rcases List.mem_cons.mp hx with rfl | hmem
      · simpa [is_stale] using hyc
      · have h1 : ¬ (eff y < cutoff) := by simpa [is_stale] using hyc
        have h2 := hy x hmem
        omega

/-! ## C1 -/

/-- Input for the C1 counterexample: a fresh packet inserted first. -/
def cexP1 : PacketEvent :=
  { timestamp := some 1000, unix_time := none, source_callsign := none }

/-- Input for the C1 counterexample: a packet far older than the retention
window, inserted after the fresh one. -/
def cexP2 : PacketEvent :=
  { timestamp := some 0, unix_time := none, source_callsign := none }

/-- The C1 counterexample store: retention 100 s, max_items 10, insert cexP1
then cexP2, both trims at now = 1000. -/
def sCex : InMemoryStore :=
  ((InMemoryStore.new 100 10).add_packet cexP1 1000).add_packet cexP2 1000

/-- C1, counterexample.  The claim asserts the staleness bound for every
sequence of inserts regardless of arrival order.  With retention 100 and
max_items 10, inserting a fresh packet (effective_timestamp 1000) and then a
stale one (effective_timestamp 0) at now = 1000 leaves the stale packet
retained: the age pass of _trim stops at the first non-stale head, so an
out-of-order stale item behind a fresh head survives, with
effective_timestamp 0 < now − retention = 900. -/
theorem c1_counterexample :
    cexP2 ∈ sCex.packets ∧
    cexP2.effective_datetime 1000 < 1000 - sCex.retention ∧
    (0 : Int) < sCex.retention ∧ (0 : Int) < sCex.max_items := by
  decide

/-- C1, amended.  After every insert_packet or insert_rssi call the affected
history's size is at most max_items (whenever max_items is non-negative);
and, provided the appended history is in non-decreasing effective_timestamp
order at the trim instant (in particular when events arrive in timestamp
order), no retained item's effective_timestamp is older than
now − retention_window.  Out-of-order arrivals may retain stale items
(c1_counterexample). -/
theorem c1_retention_invariant (s : InMemoryStore) (p : PacketEvent)
    (r : RssiSample) (now : Int) :
    (0 ≤ s.max_items →
      (((s.add_packet p now).packets.length : Int) ≤ s.max_items ∧
        ((s.add_rssi r now).rssi.length : Int) ≤ s.max_items)) ∧
    ((s.packets ++ [p]).Pairwise
        (fun a b => a.effective_datetime now ≤ b.effective_datetime now) →
      ∀ q ∈ (s.add_packet p now).packets,
        ¬ (q.effective_datetime now < now - s.retention)) ∧
    ((s.rssi ++ [r]).Pairwise
        (fun a b => a.effective_datetime now ≤ b.effective_datetime now) →
      ∀ x ∈ (s.add_rssi r now).rssi,
        ¬ (x.effective_datetime now < now - s.retention)) := by
  refine ⟨fun hm => ⟨length_capTrim_le _ hm _, length_capTrim_le _ hm _⟩,
    fun hs q hq => ?_, fun hs x hx => ?_⟩
  · exact ageTrim_pairwise_fresh _ _ _ hs q ((capTrim_suffix _ _).subset hq)
  · exact ageTrim_pairwise_fresh _ _ _ hs x ((capTrim_suffix _ _).subset hx)

/-- Witness packet for the C1 amended theorem. -/
def p0w : PacketEvent :=
  { timestamp := some 950, unix_time := none, source_callsign := some "N0CALL" }

/-- Witness sample for the C1 amended theorem. -/
def r0w : RssiSample :=
  { timestamp := some 960, dbm := -90, frequency_mhz := 144, integration_ms := none }

/-- Witness for c1_retention_invariant at the store new 100 10, packet p0w,
sample r0w, now = 1000. -/
theorem c1_retention_invariant_witness :
    (((InMemoryStore.new 100 10).add_packet p0w 1000).packets.length : Int) ≤
        (InMemoryStore.new 100 10).max_items ∧
    ∀ q ∈ ((InMemoryStore.new 100 10).add_packet p0w 1000).packets,
      ¬ (q.effective_datetime 1000 < 1000 - (InMemoryStore.new 100 10).retention) :=
  ⟨((c1_retention_invariant (InMemoryStore.new 100 10) p0w r0w 1000).1
      (by decide)).1,
    (c1_retention_invariant (InMemoryStore.new 100 10) p0w r0w 1000).2.1
      (by decide)⟩

/-! ## C2 -/

/-- A packet within the retention window for the C2 capacity-eviction
demonstration (effective_timestamp 5, cutoff −90). -/
def freshA : PacketEvent :=
  { timestamp := some 5, unix_time := none, source_callsign := none }

/-- A second fresh packet for the C2 capacity-eviction demonstration. -/
def freshB : PacketEvent :=
  { timestamp := some 6, unix_time := none, source_callsign := none }

/-- C2.  The eviction routine run by every insert performs the age pass and
then the capacity pass on the appended history with cutoff = now − retention
(first and second conjuncts, definitional); the age pass removes exactly a
maximal stale prefix of oldest items (third conjunct); the whole routine
only removes from the oldest end, leaving a suffix, hence never reorders
(fourth conjunct); the capacity pass enforces the size bound regardless of
age (fifth conjunct); and a fresh item can be evicted purely for capacity:
with cutoff −90 and max_items 1, freshA (effective_timestamp 5, not stale)
is evicted (sixth conjunct). -/
theorem c2_eviction_two_passes :
    (∀ (s : InMemoryStore) (p : PacketEvent) (r : RssiSample) (now : Int),
      (s.add_packet p now).packets =
        capTrim s.max_items
          (ageTrim (fun q => q.effective_datetime now) (now - s.retention)
            (s.packets ++ [p])) ∧
      (s.add_rssi r now).rssi =
        capTrim s.max_items
          (ageTrim (fun x => x.effective_datetime now) (now - s.retention)
            (s.rssi ++ [r]))) ∧
    (∀ (α : Type) (eff : α → Int) (cutoff max_items : Int) (l : List α),
      (l.takeWhile (fun x => is_stale (eff x) cutoff) ++ ageTrim eff cutoff l = l ∧
        ∀ x ∈ l.takeWhile (fun x => is_stale (eff x) cutoff),
          is_stale (eff x) cutoff = true) ∧
      (trim eff cutoff max_items l).IsSuffix l ∧
      (0 ≤ max_items → ((trim eff cutoff max_items l).length : Int) ≤ max_items)) ∧
    (trim (fun q => q.effective_datetime 10) (10 - 100) 1 [freshA, freshB] =
        [freshB] ∧
      is_stale (freshA.effective_datetime 10) (10 - 100) = false) := by
  refine ⟨fun s p r now => ⟨rfl, rfl⟩,
    fun α eff cutoff max_items l =>
      ⟨⟨List.takeWhile_append_dropWhile _ _, fun x hx => ?_⟩,
        (capTrim_suffix _ _).trans (ageTrim_suffix _ _ _),
        fun hm => length_capTrim_le _ hm _⟩,
    by decide⟩
  simpa using List.mem_takeWhile_imp (p := fun y => is_stale (eff y) cutoff) hx

/-- Witness for c2_eviction_two_passes: the size-bound conjunct instantiated
at cutoff 0, max_items 2 and a concrete three-element list, its hypothesis
0 ≤ 2 discharged. -/
theorem c2_eviction_two_passes_witness :
    ((trim (fun q => q.effective_datetime 0) 0 2 [freshA, freshA, freshB]).length :
        Int) ≤ 2 :=
  ((c2_eviction_two_passes.2.1 PacketEvent (fun q => q.effective_datetime 0) 0 2
      [freshA, freshA, freshB]).2.2 (by decide))

/-! ## C10 -/

/-- C10.  An event with neither an explicit timestamp nor an epoch fallback
has effective_timestamp equal to the clock reading of the evaluation, so
whenever the evaluation instant t is at or after the instant t0 at which the
cutoff t0 − retention was computed and the retention window is positive, the
staleness test is false (first two conjuncts); consequently such an event is
never removed by the age pass of _trim (next two conjuncts, stated at the
single-instant model where evaluation happens at the trim instant); it can
still leave a history through the capacity pass (last conjunct: capTrim with
max_items 0 evicts blankPacket). -/
theorem c10_blank_events_age_immune :
    (∀ (p : PacketEvent) (t0 t ret : Int), p.timestamp = none →
      p.unix_time = none → t0 ≤ t → 0 < ret →
      is_stale (p.effective_datetime t) (t0 - ret) = false) ∧
    (∀ (r : RssiSample) (t0 t ret : Int), r.timestamp = none →
      t0 ≤ t → 0 < ret →
      is_stale (r.effective_datetime t) (t0 - ret) = false) ∧
    (∀ (l : List PacketEvent) (p : PacketEvent) (now ret : Int),
      p.timestamp = none → p.unix_time = none → 0 < ret → p ∈ l →
      p ∈ ageTrim (fun q => q.effective_datetime now) (now - ret) l) ∧
    (∀ (l : List RssiSample) (r : RssiSample) (now ret : Int),
      r.timestamp = none → 0 < ret → r ∈ l →
      r ∈ ageTrim (fun x => x.effective_datetime now) (now - ret) l) ∧
    capTrim 0 [blankPacket] = [] := by
  have hp : ∀ (p : PacketEvent) (t : Int), p.timestamp = none →
      p.unix_time = none → p.effective_datetime t = t := by
    intro p t h1 h2
    simp [PacketEvent.effective_datetime, h1, h2]
  have hr : ∀ (r : RssiSample) (t : Int), r.timestamp = none →
      r.effective_datetime t = t := by
    intro r t h1
    simp [RssiSample.effective_datetime, h1]
  refine ⟨fun p t0 t ret h1 h2 ht hret => ?_,
    fun r t0 t ret h1 ht hret => ?_,
    fun l p now ret h1 h2 hret hmem => ?_,
    fun l r now ret h1 hret hmem => ?_, by decide⟩
  · rw [hp p t h1 h2]; simp [is_stale]; omega
  · rw [hr r t h1]; simp [is_stale]; omega
  · refine mem_dropWhile_of_neg _ _ _ hmem ?_
    show is_stale (p.effective_datetime now) (now - ret) = false
    rw [hp p now h1 h2]; simp [is_stale]; omega
  · refine mem_dropWhile_of_neg _ _ _ hmem ?_
    show is_stale (r.effective_datetime now) (now - ret) = false
    rw [hr r now h1]; simp [is_stale]; omega

/-- Witness for c10_blank_events_age_immune: blankPacket and blankSample in
a singleton history survive the age pass with retention 100 at now = 0, and
the staleness tests are false at t0 = 0, t = 1. -/
theorem c10_blank_events_age_immune_witness :
    is_stale (blankPacket.effective_datetime 1) (0 - 100) = false ∧
    is_stale (blankSample.effective_datetime 1) (0 - 100) = false ∧
    blankPacket ∈ ageTrim (fun q => q.effective_datetime 0) (0 - 100) [blankPacket] ∧
    blankSample ∈ ageTrim (fun x => x.effective_datetime 0) (0 - 100) [blankSample] :=
  ⟨c10_blank_events_age_immune.1 blankPacket 0 1 100 rfl rfl (by decide) (by decide),
    c10_blank_events_age_immune.2.1 blankSample 0 1 100 rfl (by decide) (by decide),
    c10_blank_events_age_immune.2.2.1 [blankPacket] blankPacket 0 100 rfl rfl
      (by decide) (List.mem_singleton.mpr rfl),
    c10_blank_events_age_immune.2.2.2.1 [blankSample] blankSample 0 100 rfl
      (by decide) (List.mem_singleton.mpr rfl)⟩

/-! ## C7 -/

/-- C7, counterexample.  The claim asserts that within a single retention or
sort operation every evaluation of a fixed event's effective_timestamp
yields the same value, for all events including those with neither an
explicit timestamp nor an epoch fallback.  For such an event
effective_datetime returns datetime.now() of the evaluation (models.py:60),
and one add_packet evaluates the same packet's effective_datetime at
distinct instants (once as the deque head in _is_stale, once in
_prune_last_seen), so two evaluations one clock tick apart already
disagree: blankPacket evaluates to 0 at instant 0 and to 1 at instant 1. -/
theorem c7_counterexample :
    blankPacket.effective_datetime 0 ≠ blankPacket.effective_datetime 1 := by
  decide

/-- C7, amended.  The derivation is consistent across evaluation instants —
hence within any single retention or sort operation — exactly for events
that carry an explicit timestamp or (for packets) an epoch fallback; for
events with neither, each evaluation returns the clock reading of that
evaluation and so may differ between two uses in one operation
(c7_counterexample). -/
theorem c7_effective_timestamp_consistency (p : PacketEvent) (r : RssiSample)
    (t1 t2 : Int) :
    (p.timestamp.isSome = true ∨ p.unix_time.isSome = true →
      p.effective_datetime t1 = p.effective_datetime t2) ∧
    (r.timestamp.isSome = true →
      r.effective_datetime t1 = r.effective_datetime t2) := by
  constructor
  · intro h
    rcases h with h | h
    · rcases Option.isSome_iff_exists.mp h with ⟨t, ht⟩
      simp [PacketEvent.effective_datetime, ht]
    · rcases Option.isSome_iff_exists.mp h with ⟨u, hu⟩
      cases hts : p.timestamp with
      | some t => simp [PacketEvent.effective_datetime, hts]
      | none => simp [PacketEvent.effective_datetime, hts, hu]
  · intro h
    rcases Option.isSome_iff_exists.mp h with ⟨t, ht⟩
    simp [RssiSample.effective_datetime, ht]

/-- Witness for c7_effective_timestamp_consistency at cexP1 (explicit
timestamp 1000), blankSample with timestamp 7, and instants 3 and 4. -/
theorem c7_effective_timestamp_consistency_witness :
    cexP1.effective_datetime 3 = cexP1.effective_datetime 4 ∧
    RssiSample.effective_datetime
        { timestamp := some 7, dbm := -90, frequency_mhz := 144,
          integration_ms := none } 3 =
      RssiSample.effective_datetime
        { timestamp := some 7, dbm := -90, frequency_mhz := 144,
          integration_ms := none } 4 :=
  ⟨(c7_effective_timestamp_consistency cexP1 blankSample 3 4).1
      (Or.inl (by decide)),
    (c7_effective_timestamp_consistency cexP1
        { timestamp := some 7, dbm := -90, frequency_mhz := 144,
          integration_ms := none } 3 4).2 (by decide)⟩

/-! ## C8 -/

/-- C8, counterexample.  The claim asserts that constructing the retention
store with a non-positive retention window or non-positive capacity is
rejected synchronously at construction.  InMemoryStore.__init__
(storage.py:56-62) performs no validation: construction with
retention_seconds = −1 and max_items = 0 (both non-positive) succeeds and
returns a store. -/
theorem c8_counterexample :
    InMemoryStore.construct (-1) 0 = Except.ok (InMemoryStore.new (-1) 0) ∧
    (-1 : Int) ≤ 0 ∧ (0 : Int) ≤ 0 :=
  ⟨rfl, by decide, by decide⟩

/-- C8, amended.  Non-positive retention window or capacity is rejected
synchronously at AppSettings (configuration) construction via the pydantic
field constraints ge=60 and ge=1 — not by the store constructor, which
performs no validation and accepts any values (c8_counterexample); store
construction itself never fails; and no steady-state store operation fails
under normal conditions: on every store whose capacity is non-negative —
which every configuration-validated store has — the inserts (the only
operations containing the fallible capacity loop; all other operations are
loop-free reads or guarded loops) always succeed and agree with the total
model.  The final conjunct shows the qualifier is required: with the
abnormal, configuration-rejected capacity −1 the capacity loop pops the
empty deque and add_packet raises IndexError. -/
theorem c8_configuration_validation (r m : Int) (hb : ℚ) (st : Bool) :
    ((r ≤ 0 ∨ m ≤ 0) →
      ∃ e, AppSettings.validate r m hb st = Except.error e) ∧
    InMemoryStore.construct r m = Except.ok (InMemoryStore.new r m) ∧
    (∀ (s : InMemoryStore) (p : PacketEvent) (x : RssiSample) (now : Int),
      0 ≤ s.max_items →
        s.add_packetE p now = some (s.add_packet p now) ∧
        s.add_rssiE x now = some (s.add_rssi x now)) ∧
    (InMemoryStore.new 100 (-1)).add_packetE blankPacket 1000 = none := by
  refine ⟨?_, rfl, fun s p x now hm => ⟨?_, ?_⟩, by decide⟩
  · intro h
    unfold AppSettings.validate
    rcases h with h | h
    · rw [if_pos (by omega)]
      exact ⟨_, rfl⟩
    · by_cases hr : r < 60
      · rw [if_pos hr]
        exact ⟨_, rfl⟩
      · rw [if_neg hr, if_pos (by omega)]
        exact ⟨_, rfl⟩
  · simp only [InMemoryStore.add_packetE, trimE,
      capTrimE_eq_capTrim s.max_items hm]
    rfl
  · simp only [InMemoryStore.add_rssiE, trimE,
      capTrimE_eq_capTrim s.max_items hm]
    rfl

/-- Witness for c8_configuration_validation: AppSettings.validate rejects
the non-positive pair (0, 0), and add_packetE succeeds on a store with the
valid capacity 10, agreeing with the total model. -/
theorem c8_configuration_validation_witness :
    (∃ e, AppSettings.validate 0 0 15 true = Except.error e) ∧
    (InMemoryStore.new 3600 10).add_packetE p0w 1000 =
      some ((InMemoryStore.new 3600 10).add_packet p0w 1000) :=
  ⟨(c8_configuration_validation 0 0 15 true).1 (Or.inl (by decide)),
    ((c8_configuration_validation 0 0 15 true).2.2.1 (InMemoryStore.new 3600 10)
        p0w blankSample 1000 (by decide)).1⟩

/-! ## C9 -/

/-- First packet for the C9 scenario: source "A", timestamp 10. -/
def c9pA : PacketEvent :=
  { timestamp := some 10, unix_time := none, source_callsign := some "A" }

/-- Second packet for the C9 scenario: source "B", timestamp 11. -/
def c9pB : PacketEvent :=
  { timestamp := some 11, unix_time := none, source_callsign := some "B" }

/-- The C9 scenario store: retention 1000 s, capacity 1; insert c9pA at 10
then c9pB at 11, so the capacity pass evicts c9pA while it is still fresh. -/
def c9Store : InMemoryStore :=
  ((InMemoryStore.new 1000 1).add_packet c9pA 10).add_packet c9pB 11

/-- C9.  The last-seen index computed by add_packet is the age-based prune
of the updated index and does not depend on max_items at all, so the
capacity pass never shrinks it (first two conjuncts: the index result is
the same for every capacity bound, and equals prune_last_seen of the
update); add_rssi leaves the index untouched (third conjunct).  Hence after
c9pA is evicted purely for capacity (store c9Store, capacity 1), last_seen
still returns c9pA for "A" although c9pA is absent from the packet history
(final conjuncts). -/
theorem c9_capacity_pass_index_frame :
    (∀ (s : InMemoryStore) (p : PacketEvent) (now m : Int),
      (InMemoryStore.add_packet { s with max_items := m } p now).last_seen_by_station =
        (s.add_packet p now).last_seen_by_station) ∧
    (∀ (s : InMemoryStore) (p : PacketEvent) (now : Int),
      (s.add_packet p now).last_seen_by_station =
        prune_last_seen (updateLastSeenFor s.last_seen_by_station p)
          (now - s.retention) now) ∧
    (∀ (s : InMemoryStore) (r : RssiSample) (now : Int),
      (s.add_rssi r now).last_seen_by_station = s.last_seen_by_station) ∧
    dictLookup c9Store.last_seen_by_station "A" = some c9pA ∧
    c9pA ∉ c9Store.packets ∧
    ¬ (c9pA.effective_datetime 11 < 11 - c9Store.retention) := by
  refine ⟨fun s p now m => rfl, fun s p now => rfl, fun s r now => rfl,
    ?_, ?_, ?_⟩ <;> decide

/-! ## C3 -/

/-- The packet ingested during the snapshot/subscribe gap in the C3
counterexample. -/
def gapP : PacketEvent :=
  { timestamp := some 5, unix_time := none, source_callsign := some "A" }

/-- The world before the C3 counterexample session starts: a fresh store
(retention 3600 s, capacity 100) and a hub with no listeners. -/
def w0 : WorldState :=
  { store := InMemoryStore.new 3600 100, hub := { listeners := [] } }

/-- C3, counterexample.  The claim asserts the session subscribes before
capturing the snapshot, so a gap event may be duplicated but is never
missed.  The code (stream.py:35-36) captures the snapshot first and
subscribes second: starting a session on w0 while gapP is ingested and
published in the gap leaves gapP in the store, yet the session's replay
list is empty and its subscriber queue is empty — the event reaches the
session in neither phase; it is missed entirely. -/
theorem c3_counterexample :
    (stream_updates_start w0 [(gapP, 5)] 5).2.1.store.packets = [gapP] ∧
    (stream_updates_start w0 [(gapP, 5)] 5).1 = [] ∧
    (stream_updates_start w0 [(gapP, 5)] 5).2.1.hub.listeners.map
        BQueue.items = [[]] := by
  refine ⟨by decide, ?_, by decide⟩
  show (w0.store.snapshot_stream_events 5) = []
  simp [w0, InMemoryStore.new, InMemoryStore.snapshot_stream_events,
    snapshotEntries]

/-- C3, amended.  On stream-session start the code captures the historical
snapshot from the store first and subscribes to the hub second: the replay
list is exactly the pre-gap snapshot, the session's queue is created empty
after every gap publish, and therefore an event published in the gap whose
message is not already in the pre-gap snapshot is delivered in neither the
replay nor the live phase — it is missed entirely (and no duplicate
delivery arises from the gap). -/
theorem c3_snapshot_before_subscribe (w : WorldState)
    (gap : List (PacketEvent × Int)) (now : Int) :
    (stream_updates_start w gap now).1 = w.store.snapshot_stream_events now ∧
    (stream_updates_start w gap now).2.1.hub.listeners.getLast? =
      some { items := [], maxsize := subscribeMaxsize } ∧
    ∀ msg : StreamMessage, msg ∉ w.store.snapshot_stream_events now →
      msg ∉ (stream_updates_start w gap now).1 := by
  refine ⟨rfl, ?_, fun msg h => h⟩
  simp only [stream_updates_start, BroadcastHub.subscribe]
  exact List.getLast?_concat _

/-- Witness for c3_snapshot_before_subscribe at w0, an empty gap, now = 0
and the heartbeat message, which is not in the pre-gap snapshot. -/
theorem c3_snapshot_before_subscribe_witness :
    StreamMessage.heartbeat 0 ∉ (stream_updates_start w0 [] 0).1 :=
  (c3_snapshot_before_subscribe w0 [] 0).2.2 (StreamMessage.heartbeat 0)
    (by
      simp [w0, InMemoryStore.new, InMemoryStore.snapshot_stream_events,
        snapshotEntries])

/-! ## C4 -/

/-- Delivery to a non-full queue: put_nowait succeeds and appends at the
newest end, prior contents unchanged. -/
lemma publishToQueue_not_full (q : BQueue) (m : StreamMessage)
    (h : q.full = false) :
    publishToQueue q m = { q with items := q.items ++ [m] } := by
  simp [publishToQueue, BQueue.put_nowait, h]

/-- Delivery to an exactly-full bounded queue: the first put_nowait raises
QueueFull, get_nowait removes the oldest pending message, and the retry
succeeds, appending the new message. -/
lemma publishToQueue_full (q : BQueue) (m : StreamMessage)
    (h0 : 0 < q.maxsize) (h : q.items.length = q.maxsize) :
    publishToQueue q m = { q with items := q.items.tail ++ [m] } := by
  obtain ⟨qi, qm⟩ := q
  simp only at h0 h
  cases qi with
  | nil => simp at h; omega
  | cons a t =>
    have ht : t.length + 1 = qm := by simpa using h
    have c1 : BQueue.full { items := a :: t, maxsize := qm } = true := by
      simp [BQueue.full]
      omega
    have c2 : BQueue.full { items := t, maxsize := qm } = false := by
      simp [BQueue.full]
      omega
    simp [publishToQueue, BQueue.put_nowait, BQueue.get_nowait, c1, c2]

/-- C4.  Publishing to N registered queues of which exactly the i-th is full
(at its positive bound): publish reaches every subscriber (the listener
list keeps its length); the full queue ends up holding its previous
contents minus the oldest pending message, plus the new message at the
newest end — in particular it contains the new message, and its previously
oldest message is gone whenever it occurred only once and differs from the
new message; every other queue receives the message appended with its prior
contents unchanged.  publish is a total function of the hub state: it never
blocks and never raises. -/
theorem c4_publish_drop_oldest (qs : List BQueue) (m : StreamMessage)
    (i : Nat) (hi : i < qs.length)
    (hm0 : 0 < (qs.get ⟨i, hi⟩).maxsize)
    (hfull : (qs.get ⟨i, hi⟩).items.length = (qs.get ⟨i, hi⟩).maxsize)
    (hothers : ∀ (j : Nat) (hj : j < qs.length), j ≠ i →
      (qs.get ⟨j, hj⟩).items.length < (qs.get ⟨j, hj⟩).maxsize) :
    ((BroadcastHub.publish { listeners := qs } m).listeners.length = qs.length) ∧
    (∀ (hi2 : i < (BroadcastHub.publish { listeners := qs } m).listeners.length),
      ((BroadcastHub.publish { listeners := qs } m).listeners.get ⟨i, hi2⟩).items =
          (qs.get ⟨i, hi⟩).items.tail ++ [m] ∧
        m ∈ ((BroadcastHub.publish { listeners := qs } m).listeners.get ⟨i, hi2⟩).items ∧
        ∀ h : StreamMessage, (qs.get ⟨i, hi⟩).items.head? = some h →
          h ∉ (qs.get ⟨i, hi⟩).items.tail → h ≠ m →
          h ∉ ((BroadcastHub.publish { listeners := qs } m).listeners.get ⟨i, hi2⟩).items) ∧
    (∀ (j : Nat) (hj : j < qs.length)
        (hj2 : j < (BroadcastHub.publish { listeners := qs } m).listeners.length),
      j ≠ i →
        ((BroadcastHub.publish { listeners := qs } m).listeners.get ⟨j, hj2⟩).items =
          (qs.get ⟨j, hj⟩).items ++ [m]) := by
  have hlen : (BroadcastHub.publish { listeners := qs } m).listeners.length =
      qs.length := by
    simp [BroadcastHub.publish]
  have hgeti : ∀ (k : Nat) (hk2 : k < (BroadcastHub.publish { listeners := qs } m).listeners.length)
      (hk : k < qs.length),
      (BroadcastHub.publish { listeners := qs } m).listeners.get ⟨k, hk2⟩ =
        publishToQueue (qs.get ⟨k, hk⟩) m := by
    intro k hk2 hk
    simp [BroadcastHub.publish, List.get_eq_getElem, List.getElem_map]
  refine ⟨hlen, fun hi2 => ?_, fun j hj hj2 hne => ?_⟩
  · have heq : (BroadcastHub.publish { listeners := qs } m).listeners.get ⟨i, hi2⟩ =
        { qs.get ⟨i, hi⟩ with items := (qs.get ⟨i, hi⟩).items.tail ++ [m] } := by
      rw [hgeti i hi2 hi, publishToQueue_full _ _ hm0 hfull]
    refine ⟨by rw [heq], by rw [heq]; exact List.mem_append_right _ (List.mem_singleton_self m),
      fun h hhead htail hne2 => ?_⟩
    rw [heq]
    intro hmem
    rcases List.mem_append.mp hmem with hmem | hmem
    · exact htail hmem
    · exact hne2 (List.mem_singleton.mp hmem)
  · have hfj : (qs.get ⟨j, hj⟩).full = false := by
      have hlt := hothers j hj hne
      unfold BQueue.full
      rw [decide_eq_false
        (by omega :
          ¬ ((qs.get ⟨j, hj⟩).maxsize ≤ (qs.get ⟨j, hj⟩).items.length))]
      simp
    rw [hgeti j hj2 hj, publishToQueue_not_full _ _ hfj]

/-- Queues for the C4 witness: the first is full (two items at bound 2),
the second has room. -/
def c4qs : List BQueue :=
  [{ items := [StreamMessage.heartbeat 1, StreamMessage.heartbeat 2], maxsize := 2 },
   { items := [StreamMessage.heartbeat 3], maxsize := 2 }]

/-- Witness for c4_publish_drop_oldest: publishing heartbeat 9 to c4qs
(queue 0 full, queue 1 not) drops heartbeat 1, keeps heartbeat 2, appends
the new message, and appends to queue 1 unchanged. -/
theorem c4_publish_drop_oldest_witness :
    ((BroadcastHub.publish { listeners := c4qs } (StreamMessage.heartbeat 9)).listeners.get
        ⟨0, by decide⟩).items =
      [StreamMessage.heartbeat 2, StreamMessage.heartbeat 9] ∧
    ((BroadcastHub.publish { listeners := c4qs } (StreamMessage.heartbeat 9)).listeners.get
        ⟨1, by decide⟩).items =
      [StreamMessage.heartbeat 3, StreamMessage.heartbeat 9] :=
  ⟨((c4_publish_drop_oldest c4qs (StreamMessage.heartbeat 9) 0 (by decide)
        (by decide) (by decide)
        (by
          intro j hj hne
          have hj2 : j < 2 := by simpa [c4qs] using hj
          interval_cases j
          · exact absurd rfl hne
          · simp [c4qs, List.get_eq_getElem])).2.1
      (by decide)).1,
    (c4_publish_drop_oldest c4qs (StreamMessage.heartbeat 9) 0 (by decide)
        (by decide) (by decide)
        (by
          intro j hj hne
          have hj2 : j < 2 := by simpa [c4qs] using hj
          interval_cases j
          · exact absurd rfl hne
          · simp [c4qs, List.get_eq_getElem])).2.2 1
      (by decide) (by decide) (by decide)⟩

/-! ## C5 -/

/-- The key column of a dict assignment: unchanged on overwrite, the new key
appended on first insert. -/
lemma keysOf_dictInsert (m : List (String × PacketEvent)) (k : String)
    (v : PacketEvent) :
    keysOf (dictInsert m k v) =
      if m.any (fun kv => kv.1 == k) then keysOf m else keysOf m ++ [k] := by
  unfold dictInsert keysOf
  split
  · rw [List.map_map]
    refine List.map_congr_left ?_
    intro kv hkv
    by_cases hb : kv.1 == k
    · have hb2 : kv.1 = k := by simpa using hb
      simp only [Function.comp, if_pos hb]
      exact hb2.symm
    · simp only [Function.comp, if_neg hb]
  · simp

/-- A member of a dict after assignment d[k] := v is the new entry (k, v) or
an old entry whose key is not k. -/
lemma mem_dictInsert (m : List (String × PacketEvent)) (k : String)
    (v : PacketEvent) (kv : String × PacketEvent) (h : kv ∈ dictInsert m k v) :
    kv = (k, v) ∨ (kv ∈ m ∧ kv.1 ≠ k) := by
  unfold dictInsert at h
  split at h
  · rcases List.mem_map.mp h with ⟨kv0, hkv0, heq⟩
    by_cases hb : kv0.1 == k
    · rw [if_pos hb] at heq
      exact Or.inl heq.symm
    · rw [if_neg hb] at heq
      subst heq
      exact Or.inr ⟨hkv0, by simpa using hb⟩
  · next hany =>
    rcases List.mem_append.mp h with h2 | h2
    · refine Or.inr ⟨h2, fun hk => hany ?_⟩
      exact List.any_eq_true.mpr ⟨kv, h2, by simp [hk]⟩
    · exact Or.inl (List.mem_singleton.mp h2)

/-- add_rssi leaves the last-seen index untouched. -/
lemma add_rssi_last_seen (s : InMemoryStore) (r : RssiSample) (now : Int) :
    (s.add_rssi r now).last_seen_by_station = s.last_seen_by_station := rfl

/-- The last-seen key column stays duplicate-free across any sequence of
inserts. -/
lemma nodup_keys_runOps (ops : List StoreOp) :
    ∀ (s : InMemoryStore), (keysOf s.last_seen_by_station).Nodup →
      (keysOf (runOps s ops).last_seen_by_station).Nodup := by
  induction ops with
  | nil => intro s h; exact h
  | cons op rest ih =>
    intro s h
    cases op with
    | packet q now =>
      refine ih (s.add_packet q now) ?_
      have hupd : (keysOf (updateLastSeenFor s.last_seen_by_station q)).Nodup := by
        cases hcs : q.source_callsign with
        | none => simpa only [updateLastSeenFor, hcs] using h
        | some cs =>
          simp only [updateLastSeenFor, hcs]
          by_cases hce : cs = ""
          · rw [if_pos hce]; exact h
          · rw [if_neg hce, keysOf_dictInsert]
            split
            · exact h
            · next hany =>
              rw [List.nodup_append]
              refine ⟨h, List.nodup_singleton cs, fun a ha hb => ?_⟩
              rcases List.mem_singleton.mp hb with rfl
              rcases List.mem_map.mp ha with ⟨kv, hkv, hkey⟩
              exact hany (List.any_eq_true.mpr ⟨kv, hkv, by simp [hkey]⟩)
      have hsub : (keysOf (s.add_packet q now).last_seen_by_station).Sublist
          (keysOf (updateLastSeenFor s.last_seen_by_station q)) := by
        unfold keysOf
        exact List.Sublist.map _ (List.filter_sublist _)
      exact hsub.nodup hupd
    | rssi r now =>
      refine ih (s.add_rssi r now) ?_
      rw [add_rssi_last_seen]
      exact h

/-- Folding the most-recent-insert step from an arbitrary accumulator equals
folding from none unless no operation matches, in which case the
accumulator survives. -/
lemma foldl_liStep (k : String) (ops : List StoreOp) :
    ∀ (a : Option PacketEvent),
      ops.foldl (liStep k) a = (ops.foldl (liStep k) none).elim a some := by
  induction ops with
  | nil => intro a; rfl
  | cons op rest ih =>
    intro a
    rw [List.foldl_cons, List.foldl_cons, ih (liStep k a op), ih (liStep k none op)]
    cases hr : rest.foldl (liStep k) none with
    | some p => rfl
    | none =>
      cases op with
      | packet p now =>
        cases hcs : p.source_callsign with
        | some cs =>
          by_cases hc : cs ≠ "" ∧ cs = k
          · obtain ⟨h1, h2⟩ := hc
            subst h2
            simp [liStep, hcs, h1, Option.elim]
          · simp [liStep, hcs, hc, Option.elim]
        | none => simp [liStep, hcs, Option.elim]
      | rssi r now => simp [liStep, Option.elim]

/-- lastInsertFor over a cons: the tail's answer wins when present,
otherwise the head operation decides. -/
lemma lastInsertFor_cons (k : String) (op : StoreOp) (rest : List StoreOp) :
    lastInsertFor k (op :: rest) =
      (lastInsertFor k rest).elim (liStep k none op) some := by
  unfold lastInsertFor
  rw [List.foldl_cons]
  exact foldl_liStep k rest (liStep k none op)

/-- Every entry of the last-seen index after a sequence of inserts is either
an entry of the starting index that no operation replaced, or the most
recently inserted packet with that truthy identifier. -/
lemma last_seen_traceback (ops : List StoreOp) :
    ∀ (s : InMemoryStore) (k : String) (p : PacketEvent),
      (k, p) ∈ (runOps s ops).last_seen_by_station →
      ((k, p) ∈ s.last_seen_by_station ∧ lastInsertFor k ops = none) ∨
        lastInsertFor k ops = some p := by
  induction ops with
  | nil => intro s k p h; exact Or.inl ⟨h, rfl⟩
  | cons op rest ih =>
    intro s k p h
    cases op with
    | packet q now =>
      have h2 := ih (s.add_packet q now) k p h
      rcases h2 with ⟨hmem, hnone⟩ | hsome
      · have hmem2 : (k, p) ∈ updateLastSeenFor s.last_seen_by_station q :=
          (List.mem_filter.mp hmem).1
        cases hcs : q.source_callsign with
        | none =>
          simp only [updateLastSeenFor, hcs] at hmem2
          refine Or.inl ⟨hmem2, ?_⟩
          rw [lastInsertFor_cons, hnone]
          simp [Option.elim, liStep, hcs]
        | some cs =>
          simp only [updateLastSeenFor, hcs] at hmem2
          by_cases hce : cs = ""
          · rw [if_pos hce] at hmem2
            refine Or.inl ⟨hmem2, ?_⟩
            rw [lastInsertFor_cons, hnone]
            simp [Option.elim, liStep, hcs, hce]
          · rw [if_neg hce] at hmem2
            rcases mem_dictInsert _ _ _ _ hmem2 with heq | ⟨hold, hnk⟩
            · have hk : k = cs := congrArg Prod.fst heq
              have hp : p = q := congrArg Prod.snd heq
              refine Or.inr ?_
              rw [lastInsertFor_cons, hnone]
              simp only [Option.elim, liStep, hcs]
              rw [if_pos ⟨hce, hk.symm⟩, hp]
            · refine Or.inl ⟨hold, ?_⟩
              rw [lastInsertFor_cons, hnone]
              simp only [Option.elim, liStep, hcs]
              rw [if_neg ?_]
              rintro ⟨h1, h2⟩
              exact hnk (by simpa using h2.symm)
      · refine Or.inr ?_
        rw [lastInsertFor_cons, hsome]
        simp [Option.elim]
    | rssi r now =>
      have h2 := ih (s.add_rssi r now) k p h
      rw [add_rssi_last_seen] at h2
      rcases h2 with ⟨hmem, hnone⟩ | hsome
      · refine Or.inl ⟨hmem, ?_⟩
        rw [lastInsertFor_cons, hnone]
        rfl
      · refine Or.inr ?_
        rw [lastInsertFor_cons, hsome]
        simp [Option.elim]

/-- A successful dict lookup names an entry of the dict. -/
lemma dictLookup_mem (m : List (String × PacketEvent)) (k : String)
    (p : PacketEvent) (h : dictLookup m k = some p) : (k, p) ∈ m := by
  unfold dictLookup at h
  cases hf : m.find? (fun kv => kv.1 == k) with
  | none => rw [hf] at h; cases h
  | some kv =>
    rw [hf] at h
    have hk : kv.1 = k := by simpa using List.find?_some hf
    have hp : kv.2 = p := by simpa using h
    have := List.mem_of_find?_eq_some hf
    rw [show (k, p) = kv from Prod.ext hk.symm hp.symm]
    exact this

/-- C5.  Starting from a freshly constructed store, after any sequence of
inserts the last-seen index has duplicate-free keys (at most one entry per
identifier); every successful lookup returns exactly the most recently
inserted packet carrying that truthy identifier; an entry survives
_prune_last_seen exactly when its packet's effective_timestamp is not below
the cutoff; and add_packet applies to the index the same cutoff
now − retention it applies to the packet history. -/
theorem c5_last_seen_index :
    (∀ (r m : Int) (ops : List StoreOp),
      (keysOf (runOps (InMemoryStore.new r m) ops).last_seen_by_station).Nodup) ∧
    (∀ (r m : Int) (ops : List StoreOp) (k : String) (p : PacketEvent),
      dictLookup (runOps (InMemoryStore.new r m) ops).last_seen_by_station k =
          some p →
        lastInsertFor k ops = some p) ∧
    (∀ (mm : List (String × PacketEvent)) (cutoff now : Int)
        (kv : String × PacketEvent),
      kv ∈ prune_last_seen mm cutoff now ↔
        kv ∈ mm ∧ ¬ (kv.2.effective_datetime now < cutoff)) ∧
    (∀ (s : InMemoryStore) (p : PacketEvent) (now : Int),
      (s.add_packet p now).last_seen_by_station =
        prune_last_seen (updateLastSeenFor s.last_seen_by_station p)
          (now - s.retention) now ∧
      (s.add_packet p now).packets =
        trim (fun q => q.effective_datetime now) (now - s.retention)
          s.max_items (s.packets ++ [p])) := by
  refine ⟨fun r m ops => nodup_keys_runOps ops _ (by simp [InMemoryStore.new, keysOf]),
    fun r m ops k p h => ?_, fun mm cutoff now kv => ?_,
    fun s p now => ⟨rfl, rfl⟩⟩
  · have hmem := dictLookup_mem _ _ _ h
    rcases last_seen_traceback ops _ k p hmem with ⟨habs, _⟩ | hsome
    · simp [InMemoryStore.new] at habs
    · exact hsome
  · unfold prune_last_seen
    rw [List.mem_filter]
    simp [is_stale]

/-- First packet of the C5 witness scenario: source "A", timestamp 10. -/
def c5p1 : PacketEvent :=
  { timestamp := some 10, unix_time := none, source_callsign := some "A" }

/-- Second packet of the C5 witness scenario: source "A" again, timestamp
11, overwriting the index entry for "A". -/
def c5p2 : PacketEvent :=
  { timestamp := some 11, unix_time := none, source_callsign := some "A" }

/-- Witness for c5_last_seen_index: after inserting c5p1 then c5p2 (same
identifier "A") into a fresh store, the lookup hypothesis holds by
computation and the theorem yields that the index entry is the most recent
insert c5p2. -/
theorem c5_last_seen_index_witness :
    lastInsertFor "A" [StoreOp.packet c5p1 10, StoreOp.packet c5p2 11] =
      some c5p2 :=
  c5_last_seen_index.2.1 1000 10 [StoreOp.packet c5p1 10, StoreOp.packet c5p2 11]
    "A" c5p2 (by decide)

/-! ## C6 -/

/-- Every entry built by snapshot_stream_events carries as key the effective
timestamp of its message. -/
lemma snapshotEntries_key (s : InMemoryStore) (now : Int) :
    ∀ e ∈ snapshotEntries s now, e.1 = StreamMessage.eff e.2 now := by
  intro e he
  unfold snapshotEntries at he
  rcases List.mem_append.mp he with h | h <;>
    · rcases List.mem_map.mp h with ⟨x, hx, rfl⟩
      rfl

/-- C6.  snapshot_stream_events returns messages whose underlying effective
timestamps are non-decreasing; its length is the number of retained packets
plus the number of retained samples; and the sort is stable on ties: for
every key value, the entries carrying that key appear in the sorted list
exactly as they appear in the unsorted packets-then-samples list. -/
theorem c6_snapshot_ordered (s : InMemoryStore) (now key : Int) :
    ((s.snapshot_stream_events now).map
        (fun msg => StreamMessage.eff msg now)).Pairwise (fun a b => a ≤ b) ∧
    (s.snapshot_stream_events now).length = s.packets.length + s.rssi.length ∧
    ((snapshotEntries s now).mergeSort (fun a b => decide (a.1 ≤ b.1))).filter
        (fun e => decide (e.1 = key)) =
      (snapshotEntries s now).filter (fun e => decide (e.1 = key)) := by
  have htrans : ∀ (a b c : Int × StreamMessage),
      decide (a.1 ≤ b.1) = true → decide (b.1 ≤ c.1) = true →
      decide (a.1 ≤ c.1) = true := by
    intro a b c h1 h2
    simp only [decide_eq_true_eq] at h1 h2 ⊢
    omega
  have htotal : ∀ (a b : Int × StreamMessage),
      (decide (a.1 ≤ b.1) || decide (b.1 ≤ a.1)) = true := by
    intro a b
    simpa using Int.le_total a.1 b.1
  have hpw := List.sorted_mergeSort htrans htotal (snapshotEntries s now)
  have hmemkey : ∀ e ∈ (snapshotEntries s now).mergeSort
      (fun a b => decide (a.1 ≤ b.1)), e.1 = StreamMessage.eff e.2 now :=
    fun e he =>
      snapshotEntries_key s now e ((List.mergeSort_perm _ _).subset he)
  refine ⟨?_, ?_, ?_⟩
  · unfold InMemoryStore.snapshot_stream_events
    rw [List.map_map]
    rw [List.pairwise_map]
    refine hpw.imp_of_mem ?_
    intro a b ha hb hr
    simp only [Function.comp]
    rw [← hmemkey a ha, ← hmemkey b hb]
    simpa using hr
  · simp [InMemoryStore.snapshot_stream_events, List.length_mergeSort,
      snapshotEntries]
  · have h4 : ((snapshotEntries s now).filter
        (fun e => decide (e.1 = key))).filter (fun e => decide (e.1 = key)) =
        (snapshotEntries s now).filter (fun e => decide (e.1 = key)) :=
      List.filter_eq_self.mpr (fun a ha => (List.mem_filter.mp ha).2)
    have hcpw : ((snapshotEntries s now).filter
        (fun e => decide (e.1 = key))).Pairwise
        (fun a b => decide (a.1 ≤ b.1) = true) := by
      refine List.pairwise_of_forall_mem_list ?_
      intro a ha b hb
      have ha2 := (List.mem_filter.mp ha).2
      have hb2 := (List.mem_filter.mp hb).2
      simp only [decide_eq_true_eq] at ha2 hb2 ⊢
      omega
    have h2 := List.sublist_mergeSort htrans htotal hcpw
      (List.filter_sublist (snapshotEntries s now))
    have h5 : ((snapshotEntries s now).filter (fun e => decide (e.1 = key))).Sublist
        (((snapshotEntries s now).mergeSort (fun a b => decide (a.1 ≤ b.1))).filter
          (fun e => decide (e.1 = key))) := by
      have h6 := List.Sublist.filter (fun e => decide (e.1 = key)) h2
      rwa [h4] at h6
    have h3 := (List.mergeSort_perm (snapshotEntries s now)
      (fun a b => decide (a.1 ≤ b.1))).filter (fun e => decide (e.1 = key))
    exact (h5.eq_of_length h3.length_eq.symm).symm

end Direwolf
